import Mathlib

/-!
Shallow embedding of the protocol core of the `rsyn` rsync client
(src/varint.rs, src/mux.rs, src/flist.rs, src/sums.rs, src/connection.rs).

Byte streams are modelled as finite lists of natural numbers (each intended
to be a byte value below 256; encoders only ever produce such values, and
decoders never depend on the bound).  Reading from a stream consumes a
prefix and returns the remaining suffix; end of stream is end of list.
Fallible operations return `Except Err`, where `Err` collects the error
and panic outcomes that occur in the embedded code paths.
-/

namespace Rsyn

/-- Rollup counters written during a transfer; models `Summary` in
src/statistics.rs (the `server_stats` and `child_exit_status` fields are
not needed by the embedded code paths and are omitted). -/
structure Summary where
  server_flist_io_error_count : Int := 0
  invalid_file_index_count : Nat := 0
  whole_file_sum_mismatch_count : Nat := 0
  literal_bytes_received : Nat := 0
  files_received : Nat := 0
deriving DecidableEq, Repr

/-- Error and panic outcomes of the embedded code.  Constructors tagged
`panic` model Rust panics (out-of-bounds indexing, `assert!`,
`Option::unwrap` on `None`, `todo!`); the others model `io::Error` values
and `bail!`-style protocol errors.  `fuelExhausted` is a modelling
artifact of bounding unbounded loops by the stream length; it never
occurs on the inputs considered by the theorems below. -/
inductive Err where
  | unexpectedEof
  | dataWhenEofExpected
  | zeroLengthData
  | remoteFatal
  | fuelExhausted
  | tooOldProtocol
  | invalidNameEmpty
  | invalidNameAbsolute
  | invalidNameUnsafe
  | negativeFileLen
  | panicNoPrevEntry
  | panicEmptyName
  | panicIndexOutOfBounds (summarySoFar : Summary)
  | panicDataTooBig
  | todoBlockRef
deriving DecidableEq, Repr

instance instDecEqExcept {ε α : Type} [DecidableEq ε] [DecidableEq α] :
    DecidableEq (Except ε α) := fun a b =>
  match a, b with
  | .error e, .error f =>
    if h : e = f then .isTrue (by rw [h])
    else .isFalse (by intro hc; cases hc; exact h rfl)
  | .error _, .ok _ => .isFalse (by intro hc; cases hc)
  | .ok _, .error _ => .isFalse (by intro hc; cases hc)
  | .ok x, .ok y =>
    if h : x = y then .isTrue (by rw [h])
    else .isFalse (by intro hc; cases hc; exact h rfl)

/-- Value of a little-endian byte string. -/
def fromLeBytes (bs : List Nat) : Nat := bs.foldr (fun b acc => b + 256 * acc) 0

/-- Four little-endian bytes of a 32-bit value. -/
def toLeBytes4 (n : Nat) : List Nat :=
  [n % 256, n / 256 % 256, n / 65536 % 256, n / 16777216 % 256]

/-- Eight little-endian bytes of a 64-bit value. -/
def toLeBytes8 (n : Nat) : List Nat :=
  [n % 256, n / 256 % 256, n / 65536 % 256, n / 16777216 % 256,
   n / 4294967296 % 256, n / 1099511627776 % 256,
   n / 281474976710656 % 256, n / 72057594037927936 % 256]

/-- Two's complement reading of a 32-bit unsigned value, as in
`i32::from_le_bytes` (src/varint.rs line 50). -/
def decodeI32 (n : Nat) : Int := if n < 2 ^ 31 then (n : Int) else (n : Int) - 2 ^ 32

/-- Two's complement reading of a 64-bit unsigned value, as in
`i64::from_le_bytes` (src/varint.rs line 62). -/
def decodeI64 (n : Nat) : Int := if n < 2 ^ 63 then (n : Int) else (n : Int) - 2 ^ 64

/-- Models `ReadVarint::read_u8` (src/varint.rs lines 34-37): one byte,
`UnexpectedEof` at end of stream. -/
def read_u8 (s : List Nat) : Except Err (Nat × List Nat) :=
  match s with
  | [] => .error .unexpectedEof
  | b :: rest => .ok (b, rest)

/-- Models `ReadVarint::read_byte_string` (src/varint.rs lines 42-45):
exactly `len` bytes via `read_exact`, or `UnexpectedEof`. -/
def read_byte_string (s : List Nat) (len : Nat) : Except Err (List Nat × List Nat) :=
  if len ≤ s.length then .ok (s.take len, s.drop len) else .error .unexpectedEof

/-- Models `ReadVarint::read_i32` (src/varint.rs lines 47-53): four bytes,
little-endian two's complement. -/
def read_i32 (s : List Nat) : Except Err (Int × List Nat) :=
  match read_byte_string s 4 with
  | .error e => .error e
  | .ok (buf, rest) => .ok (decodeI32 (fromLeBytes buf), rest)

/-- Models `ReadVarint::read_i64` (src/varint.rs lines 55-66): read an i32;
if it is exactly -1 read eight further bytes as an i64, otherwise the
result is `v as i64`, Rust's sign extension of the i32. -/
def read_i64 (s : List Nat) : Except Err (Int × List Nat) :=
  match read_i32 s with
  | .error e => .error e
  | .ok (v, rest) =>
    if v ≠ -1 then .ok (v, rest)
    else
      match read_byte_string rest 8 with
      | .error e => .error e
      | .ok (buf, rest2) => .ok (decodeI64 (fromLeBytes buf), rest2)

/-- Models `ReadVarint::check_for_eof` (src/varint.rs lines 79-85): ok only
when the next read hits end of stream. -/
def check_for_eof (s : List Nat) : Except Err Unit :=
  match s with
  | [] => .ok ()
  | _ => .error .dataWhenEofExpected

/-- Models `WriteVarint::write_i32` (src/varint.rs lines 98-101): the four
little-endian bytes of the value's 32-bit two's complement. -/
def write_i32 (v : Int) : List Nat := toLeBytes4 (v % 2 ^ 32).toNat

/-! Basic facts about the byte codecs. -/

theorem toLeBytes4_length (n : Nat) : (toLeBytes4 n).length = 4 := rfl

theorem fromLeBytes_toLeBytes4 (n : Nat) (h : n < 2 ^ 32) :
    fromLeBytes (toLeBytes4 n) = n := by
  simp only [toLeBytes4, fromLeBytes, List.foldr]
  omega

theorem fromLeBytes_toLeBytes8 (n : Nat) (h : n < 2 ^ 64) :
    fromLeBytes (toLeBytes8 n) = n := by
  simp only [toLeBytes8, fromLeBytes, List.foldr]
  omega

theorem read_byte_string_append (w rest : List Nat) :
    read_byte_string (w ++ rest) w.length = .ok (w, rest) := by
  simp [read_byte_string, List.take_left, List.drop_left]

theorem read_i32_write_i32 (v : Int) (rest : List Nat)
    (h1 : -2 ^ 31 ≤ v) (h2 : v < 2 ^ 31) :
    read_i32 (write_i32 v ++ rest) = .ok (v, rest) := by
  have h4 : (toLeBytes4 (v % 2 ^ 32).toNat).length = 4 := rfl
  have hb := read_byte_string_append (toLeBytes4 (v % 2 ^ 32).toNat) rest
  rw [h4] at hb
  simp only [read_i32, write_i32, hb]
  have hlt : (v % 2 ^ 32).toNat < 2 ^ 32 := by omega
  rw [fromLeBytes_toLeBytes4 _ hlt]
  have hv : decodeI32 (v % 2 ^ 32).toNat = v := by
    simp only [decodeI32]
    split <;> omega
  rw [hv]

/-! Demultiplexer and multiplexer, from src/mux.rs. -/

/-- Tag of a data frame (src/mux.rs line 29). -/
def TAG_DATA : Nat := 7

/-- Tag of a fatal-error frame (src/mux.rs line 30). -/
def TAG_FATAL : Nat := 1

/-- State of `DemuxRead` (src/mux.rs lines 32-37): the underlying stream
and the number of payload bytes of the current data frame still unread. -/
structure DemuxRead where
  r : List Nat
  current_packet_len : Nat
deriving DecidableEq, Repr

/-- Models `DemuxRead::read_header_consume_messages` (src/mux.rs lines
67-107).  Reads 4-byte headers, consumes message frames (logging their
payloads), fails on a fatal frame or a zero-length data frame, and
returns the payload length of the next data frame.  `read_exact` of the
header maps any `UnexpectedEof` (clean or after 1-3 bytes) to `Ok(0)`;
the bytes it consumed are gone from the stream. -/
def read_header_consume_messages (s : List Nat) : Except Err (Nat × List Nat) :=
  if h4 : 4 ≤ s.length then
    if fromLeBytes (s.take 4) / 16777216 = TAG_DATA then
      if fromLeBytes (s.take 4) % 16777216 = 0 then .error .zeroLengthData
      else .ok (fromLeBytes (s.take 4) % 16777216, s.drop 4)
    else
      if fromLeBytes (s.take 4) % 16777216 ≤ (s.drop 4).length then
        if fromLeBytes (s.take 4) / 16777216 = TAG_FATAL then .error .remoteFatal
        else read_header_consume_messages
          ((s.drop 4).drop (fromLeBytes (s.take 4) % 16777216))
      else .error .unexpectedEof
  else .ok (0, [])
termination_by s.length
decreasing_by simp [List.length_drop]; omega

/-- Models `<DemuxRead as Read>::read` (src/mux.rs lines 39-49) for a
caller buffer of `buf_len` bytes: parse a header (consuming message
frames) when no payload is pending, then return at most
`min buf_len current_packet_len` bytes, as many as the underlying
stream can supply. -/
def demuxRead (buf_len : Nat) (st : DemuxRead) : Except Err (List Nat × DemuxRead) :=
  match (if st.current_packet_len = 0
         then read_header_consume_messages st.r
         else .ok (st.current_packet_len, st.r)) with
  | .error e => .error e
  | .ok (cur, r) =>
    let max_len := min buf_len cur
    let read_len := min max_len r.length
    .ok (r.take read_len, ⟨r.drop read_len, cur - read_len⟩)

/-- Repeated `demuxRead` calls with a buffer of `buf_len` bytes, collecting
the returned bytes until a read returns zero bytes (end of stream) or
fails.  The fuel bounds the number of reads; every read that does not
stop the loop consumes at least one byte of the stream, so
`stream length + 1` is always enough (see `demuxRun`). -/
def demuxRunFuel (buf_len : Nat) : Nat → DemuxRead → Except Err (List Nat)
  | 0, _ => .error .fuelExhausted
  | fuel + 1, st =>
    match demuxRead buf_len st with
    | .error e => .error e
    | .ok (out, st') =>
      if out = [] then .ok []
      else
        match demuxRunFuel buf_len fuel st' with
        | .error e => .error e
        | .ok tail => .ok (out ++ tail)

/-- Read the whole demultiplexed stream with a buffer large enough for any
single frame (2^24 bytes). -/
def demuxRun (st : DemuxRead) : Except Err (List Nat) :=
  demuxRunFuel (2 ^ 24) (st.r.length + 1) st

/-- One multiplexed frame: a tag byte and a payload. -/
structure Frame where
  tag : Nat
  payload : List Nat
deriving DecidableEq, Repr

/-- Well-formed frame: the tag fits in 8 bits and the payload length in
24 bits, as required by the `(tag << 24) | length` header layout. -/
def Frame.wf (f : Frame) : Prop := f.tag < 256 ∧ f.payload.length < 2 ^ 24

/-- Wire encoding of a frame: 4-byte little-endian header
`(tag << 24) | length`, then the payload (src/mux.rs lines 82-84 read
direction, lines 138-145 write direction). -/
def encodeFrame (f : Frame) : List Nat :=
  toLeBytes4 (f.tag * 16777216 + f.payload.length) ++ f.payload

/-- Wire encoding of a sequence of frames. -/
def encodeFrames : List Frame → List Nat
  | [] => []
  | f :: fs => encodeFrame f ++ encodeFrames fs

/-- Concatenation of the payloads of the data (tag 7) frames, in order. -/
def dataPayloads : List Frame → List Nat
  | [] => []
  | f :: fs => (if f.tag = TAG_DATA then f.payload else []) ++ dataPayloads fs

/-- Number of data (tag 7) frames. -/
def numData : List Frame → Nat
  | [] => 0
  | f :: fs => (if f.tag = TAG_DATA then 1 else 0) + numData fs

/-- A clean frame neither aborts the demultiplexer nor trips the
zero-length-data check: it is not fatal, and if it is a data frame its
payload is nonempty. -/
def Frame.clean (f : Frame) : Prop :=
  f.tag ≠ TAG_FATAL ∧ (f.tag = TAG_DATA → f.payload ≠ [])

instance (f : Frame) : Decidable f.wf := by unfold Frame.wf; infer_instance

instance (f : Frame) : Decidable f.clean := by unfold Frame.clean; infer_instance

/-- Models `<MuxWrite as Write>::write` (src/mux.rs lines 130-148): assert
that the buffer is strictly shorter than 0xffffff (a panic otherwise,
modelled as an error), then emit a data-frame header and the buffer. -/
def muxWrite (buf : List Nat) : Except Err (List Nat) :=
  if buf.length < 16777215 then
    .ok (toLeBytes4 (TAG_DATA * 16777216 + buf.length) ++ buf)
  else .error .panicDataTooBig

/-- Write a sequence of buffers through the multiplexer, concatenating the
emitted frames. -/
def muxWriteAll : List (List Nat) → Except Err (List Nat)
  | [] => .ok []
  | b :: bs =>
    match muxWrite b with
    | .error e => .error e
    | .ok w =>
      match muxWriteAll bs with
      | .error e => .error e
      | .ok ws => .ok (w ++ ws)

/-! File lists and entries, from src/flist.rs. -/

/-- Models `FileEntry` (src/flist.rs lines 44-62): name as a byte string,
u64 length, u32 mode and mtime, optional symlink target. -/
structure FileEntry where
  name : List Nat
  file_len : Nat
  mode : Nat
  mtime : Nat
  link_target : Option (List Nat)
deriving DecidableEq, Repr

/-- Status-byte flag `STATUS_REPEAT_MODE` (src/flist.rs line 30). -/
def STATUS_REPEAT_MODE : Nat := 0x02

/-- Status-byte flag `STATUS_REPEAT_PARTIAL_NAME` (src/flist.rs line 33). -/
def STATUS_REPEAT_PARTIAL_NAME : Nat := 0x20

/-- Status-byte flag `STATUS_LONG_NAME` (src/flist.rs line 34). -/
def STATUS_LONG_NAME : Nat := 0x40

/-- Status-byte flag `STATUS_REPEAT_MTIME` (src/flist.rs line 35). -/
def STATUS_REPEAT_MTIME : Nat := 0x80

/-- Byte-wise lexicographic comparison of names, as in Rust's
`Ord for Vec<u8>` used by `a.name.cmp(&b.name)` (src/flist.rs line 265). -/
def bytesCmp : List Nat → List Nat → Ordering
  | [], [] => .eq
  | [], _ :: _ => .lt
  | _ :: _, [] => .gt
  | a :: xs, b :: ys =>
    if a < b then .lt else if b < a then .gt else bytesCmp xs ys

/-- Comparator order used by the sort: `a` sorts no later than `b`. -/
def entryLe (a b : FileEntry) : Prop := bytesCmp a.name b.name ≠ .gt

/-- Strict name order between entries. -/
def entryLt (a b : FileEntry) : Prop := bytesCmp a.name b.name = .lt

instance : DecidableRel entryLe := fun a b => by unfold entryLe; infer_instance

instance : DecidableRel entryLt := fun a b => by unfold entryLt; infer_instance

/-- Models the retention loop of `Vec::dedup_by` with the predicate
`a.name == b.name` (src/flist.rs line 268), keeping the first entry of
each run of equal names: `x` is the last retained entry, and each later
entry is dropped when its name equals `x`'s. -/
def dedupKeep (x : FileEntry) : List FileEntry → List FileEntry
  | [] => [x]
  | y :: rest =>
    if x.name = y.name then dedupKeep x rest else x :: dedupKeep y rest

/-- Adjacent-duplicate removal by name, as `dedup_by` on the sorted list. -/
def dedup_by_name : List FileEntry → List FileEntry
  | [] => []
  | x :: rest => dedupKeep x rest

/-- Models `sort_and_dedupe` (src/flist.rs lines 254-276): sort by
byte-wise comparison of `name` (`sort_unstable_by`, embedded as an
insertion sort over the same comparator), then remove adjacent entries
with equal names. -/
def sort_and_dedupe (l : List FileEntry) : List FileEntry :=
  dedup_by_name (List.insertionSort entryLe l)

/-- Models `validate_name` (src/flist.rs lines 230-252): reject the empty
name, a leading `/` (byte 47), and any `/`-separated segment that is
empty or equal to `..` (bytes 46 46). -/
def validate_name (name : List Nat) : Except Err Unit :=
  if name = [] then .error .invalidNameEmpty
  else if name.head? = some 47 then .error .invalidNameAbsolute
  else if (name.splitOn 47).any (fun part => part = [] || part = [46, 46]) then
    .error .invalidNameUnsafe
  else .ok ()

/-- Models `receive_file_entry` (src/flist.rs lines 159-223).  Reads the
status byte (zero terminates the list), the optional inherited-name
count, the name length (i32 when `STATUS_LONG_NAME`, else u8), the name
bytes prefixed by the previous entry's truncated name when inherited,
then `file_len` as i64 (negative rejected), and mtime and mode as fresh
i32 or inherited from the previous entry.  `previous.unwrap()` with no
previous entry and the `assert!(!name.is_empty())` are panics. -/
def receive_file_entry (s : List Nat) (previous : Option FileEntry) :
    Except Err (Option FileEntry × List Nat) :=
  match read_u8 s with
  | .error e => .error e
  | .ok (status, s) =>
  if status = 0 then .ok (none, s)
  else
  match (if status &&& STATUS_REPEAT_PARTIAL_NAME ≠ 0
         then read_u8 s
         else .ok (0, s)) with
  | .error e => .error e
  | .ok (inherit_name_bytes, s) =>
  match (if status &&& STATUS_LONG_NAME ≠ 0
         then match read_i32 s with
              | .error e => .error e
              | .ok (v, s) => .ok ((v % 2 ^ 64).toNat, s)
         else read_u8 s) with
  | .error e => .error e
  | .ok (name_len, s) =>
  match read_byte_string s name_len with
  | .error e => .error e
  | .ok (fresh_name, s) =>
  match (if inherit_name_bytes > 0
         then match previous with
              | none => .error .panicNoPrevEntry
              | some prev => .ok (prev.name.take inherit_name_bytes ++ fresh_name)
         else .ok fresh_name : Except Err (List Nat)) with
  | .error e => .error e
  | .ok name =>
  if name = [] then .error .panicEmptyName
  else
  match validate_name name with
  | .error e => .error e
  | .ok () =>
  match read_i64 s with
  | .error e => .error e
  | .ok (flen, s) =>
  if flen < 0 then .error .negativeFileLen
  else
  match (if status &&& STATUS_REPEAT_MTIME = 0
         then match read_i32 s with
              | .error e => .error e
              | .ok (v, s) => .ok ((v % 2 ^ 32).toNat, s)
         else match previous with
              | none => .error .panicNoPrevEntry
              | some prev => .ok (prev.mtime, s) : Except Err (Nat × List Nat)) with
  | .error e => .error e
  | .ok (mtime, s) =>
  match (if status &&& STATUS_REPEAT_MODE = 0
         then match read_i32 s with
              | .error e => .error e
              | .ok (v, s) => .ok ((v % 2 ^ 32).toNat, s)
         else match previous with
              | none => .error .panicNoPrevEntry
              | some prev => .ok (prev.mode, s) : Except Err (Nat × List Nat)) with
  | .error e => .error e
  | .ok (mode, s) =>
    .ok (some ⟨name, flen.toNat, mode, mtime, none⟩, s)

/-- Entry-reading loop of `read_file_list` (src/flist.rs lines 150-153):
push entries while `receive_file_entry` returns one, passing the last
pushed entry as the previous entry.  Each entry consumes at least its
status byte, so fuel `stream length + 1` always suffices. -/
def read_file_list_loop : Nat → List Nat → List FileEntry →
    Except Err (List FileEntry × List Nat)
  | 0, _, _ => .error .fuelExhausted
  | fuel + 1, s, acc =>
    match receive_file_entry s acc.getLast? with
    | .error e => .error e
    | .ok (none, s') => .ok (acc, s')
    | .ok (some e, s') => read_file_list_loop fuel s' (acc ++ [e])

/-- Models `read_file_list` (src/flist.rs lines 144-157): read entries
until the zero status byte, then sort and dedupe. -/
def read_file_list (s : List Nat) : Except Err (List FileEntry × List Nat) :=
  match read_file_list_loop (s.length + 1) s [] with
  | .error e => .error e
  | .ok (entries, rest) => .ok (sort_and_dedupe entries, rest)

/-! Sum heads (src/sums.rs) and the connection (src/connection.rs). -/

/-- Models `SumHead` (src/sums.rs lines 22-28): four i32 fields. -/
structure SumHead where
  count : Int
  blength : Int
  s2length : Int
  remainder : Int
deriving DecidableEq, Repr

/-- Models `SumHead::read` (src/sums.rs lines 41-50): four i32 reads in
field order. -/
def sumHeadRead (s : List Nat) : Except Err (SumHead × List Nat) :=
  match read_i32 s with
  | .error e => .error e
  | .ok (count, s) =>
  match read_i32 s with
  | .error e => .error e
  | .ok (blength, s) =>
  match read_i32 s with
  | .error e => .error e
  | .ok (s2length, s) =>
  match read_i32 s with
  | .error e => .error e
  | .ok (remainder, s) => .ok (⟨count, blength, s2length, remainder⟩, s)

/-- Client protocol version constant (src/connection.rs line 38). -/
def MY_PROTOCOL_VERSION : Int := 27

/-- Result of a successful handshake (src/connection.rs lines 44-61,
without the process and option fields, which the embedded code paths do
not consult). -/
structure Connection where
  protocol_version : Int
  checksum_seed : Int
deriving DecidableEq, Repr

/-- Models `Connection::handshake` (src/connection.rs lines 67-109) on the
server-to-client stream: read the remote version as i32 (a read failure
is an unhandled `unwrap`, modelled as the read's error), bail if it is
below ours, read the checksum seed, and agree on
`min(MY_PROTOCOL_VERSION, remote)`.  The returned stream is the raw
remainder, which the caller wraps in the demultiplexer. -/
def handshake (s : List Nat) : Except Err (Connection × List Nat) :=
  match read_i32 s with
  | .error e => .error e
  | .ok (remote_protocol_version, s) =>
  if remote_protocol_version < MY_PROTOCOL_VERSION then .error .tooOldProtocol
  else
  match read_i32 s with
  | .error e => .error e
  | .ok (checksum_seed, s) =>
    .ok (⟨min MY_PROTOCOL_VERSION remote_protocol_version, checksum_seed⟩, s)

/-- Models the soft-error-count step of `Connection::receive`
(src/connection.rs lines 123-132): when the agreed protocol version is
below 30 read one i32 and record it, otherwise read nothing. -/
def readSoftErrorCount (protocol_version : Int) (s : List Nat) :
    Except Err (Option Int × List Nat) :=
  if protocol_version < 30 then
    match read_i32 s with
    | .error e => .error e
    | .ok (c, s) => .ok (some c, s)
  else .ok (none, s)

/-- Models `ServerStatistics` (src/statistics.rs lines 46-64). -/
structure ServerStatistics where
  total_bytes_read : Int
  total_bytes_written : Int
  total_file_size : Int
  flist_build_time : Option Int
  flist_xfer_time : Option Int
deriving DecidableEq, Repr

/-- Models `read_server_statistics` (src/connection.rs lines 222-238):
three i64 reads, then two more only when the protocol version is at
least 29. -/
def read_server_statistics (s : List Nat) (protocol_version : Int) :
    Except Err (ServerStatistics × List Nat) :=
  match read_i64 s with
  | .error e => .error e
  | .ok (total_bytes_read, s) =>
  match read_i64 s with
  | .error e => .error e
  | .ok (total_bytes_written, s) =>
  match read_i64 s with
  | .error e => .error e
  | .ok (total_file_size, s) =>
  match (if protocol_version ≥ 29
         then match read_i64 s with
              | .error e => .error e
              | .ok (v, s) => .ok (some v, s)
         else .ok (none, s) : Except Err (Option Int × List Nat)) with
  | .error e => .error e
  | .ok (flist_build_time, s) =>
  match (if protocol_version ≥ 29
         then match read_i64 s with
              | .error e => .error e
              | .ok (v, s) => .ok (some v, s)
         else .ok (none, s) : Except Err (Option Int × List Nat)) with
  | .error e => .error e
  | .ok (flist_xfer_time, s) =>
    .ok (⟨total_bytes_read, total_bytes_written, total_file_size,
          flist_build_time, flist_xfer_time⟩, s)

/-- Token loop of `receive_file` (src/connection.rs lines 301-317),
parametrised by fuel (each iteration consumes at least the 4 bytes of
the token i32).  Accumulates the bytes fed to the hasher and the count
added to `literal_bytes_received`; a negative token hits `todo!`.  The
literal bytes are NOT written anywhere else: the local tree parameter of
`receive_file` is unused in the source (its line 315 is
`TODO: Write it to the local tree`), which the `treeWrites` component of
`receive_file` makes observable. -/
def receiveTokens : Nat → List Nat → List Nat → Nat →
    Except Err ((List Nat × Nat) × List Nat)
  | 0, _, _, _ => .error .fuelExhausted
  | fuel + 1, s, hashed, lits =>
    match read_i32 s with
    | .error e => .error e
    | .ok (t, s) =>
    if t = 0 then .ok ((hashed, lits), s)
    else if t < 0 then .error .todoBlockRef
    else
      match read_byte_string s t.toNat with
      | .error e => .error e
      | .ok (content, s) =>
        receiveTokens fuel s (hashed ++ content) (lits + content.length)

/-- Models `receive_file` (src/connection.rs lines 287-337), parametrised
by the MD4 function (16-byte digest of a byte string).  Reads the sum
head, runs the token loop with the hasher seeded by the four
little-endian checksum-seed bytes, reads the 16-byte remote digest, and
bumps `whole_file_sum_mismatch_count` on mismatch.  Returns the updated
summary, the bytes written to the local tree (always `[]`: the source
never writes them, `_local_tree` is unused), and the remaining
stream. -/
def receive_file (md4 : List Nat → List Nat) (checksum_seed : Int)
    (_entry : FileEntry) (summary : Summary) (s : List Nat) :
    Except Err (Summary × List Nat × List Nat) :=
  match sumHeadRead s with
  | .error e => .error e
  | .ok (_sums, s) =>
  match receiveTokens (s.length + 1) s [] 0 with
  | .error e => .error e
  | .ok ((hashed, lits), s) =>
  match read_byte_string s 16 with
  | .error e => .error e
  | .ok (remote_md4, s) =>
    let summary := { summary with literal_bytes_received :=
                      summary.literal_bytes_received + lits }
    let local_md4 := md4 (write_i32 checksum_seed ++ hashed)
    let summary :=
      if local_md4 ≠ remote_md4 then
        { summary with whole_file_sum_mismatch_count :=
            summary.whole_file_sum_mismatch_count + 1 }
      else summary
    .ok (summary, [], s)

/-- Models `receive_offered_files` (src/connection.rs lines 261-285),
parametrised by fuel (each iteration consumes at least the 4 bytes of
the index i32).  Reads an i32 file index; -1 ends the phase.  The index
is converted with `as usize` (64-bit wrap).  When it is out of range of
the file list, `invalid_file_index_count` is incremented and the error
is logged, but control then falls through to `&file_list[idx]`, which
panics with an out-of-bounds index; there is no `continue`.  In range,
the file is received and `files_received` incremented. -/
def receive_offered_files (md4 : List Nat → List Nat) (checksum_seed : Int)
    (file_list : List FileEntry) :
    Nat → Summary → List Nat → Except Err (Summary × List Nat)
  | 0, _, _ => .error .fuelExhausted
  | fuel + 1, summary, s =>
    match read_i32 s with
    | .error e => .error e
    | .ok (remote_idx, s) =>
    if remote_idx = -1 then .ok (summary, s)
    else
      let idx := (remote_idx % 2 ^ 64).toNat
      let summary :=
        if file_list.length ≤ idx then
          { summary with invalid_file_index_count :=
              summary.invalid_file_index_count + 1 }
        else summary
      if h : idx < file_list.length then
        match receive_file md4 checksum_seed (file_list.get ⟨idx, h⟩) summary s with
        | .error e => .error e
        | .ok (summary, _writes, s) =>
          receive_offered_files md4 checksum_seed file_list fuel
            { summary with files_received := summary.files_received + 1 } s
      else .error (.panicIndexOutOfBounds summary)

/-! Theorems. -/

theorem toLeBytes8_length (n : Nat) : (toLeBytes8 n).length = 8 := rfl

/-- C3, counterexample.  The claim says a non-sentinel 4-byte prefix
zero-extends, so every decoded value would be non-negative.  On the
prefix fe ff ff ff (the i32 value -2) the code returns -2: Rust's
`v as i64` sign-extends, so the result is negative and differs from the
zero-extension 4294967294. -/
theorem read_i64_zero_extend_counterexample :
    read_i64 [254, 255, 255, 255] = .ok (-2, []) ∧ (-2 : Int) < 0 ∧
      (-2 : Int) ≠ 4294967294 := by
  refine ⟨rfl, by norm_num, by norm_num⟩

/-- Helper: a non-sentinel i32 prefix decodes as the short form. -/
theorem read_i64_short_form (v : Int) (rest : List Nat)
    (h1 : -2 ^ 31 ≤ v) (h2 : v < 2 ^ 31) (h3 : v ≠ -1) :
    read_i64 (write_i32 v ++ rest) = .ok (v, rest) := by
  rw [read_i64, read_i32_write_i32 v rest h1 h2]
  simp [h3]

/-- Helper: the -1 sentinel is followed by an 8-byte little-endian i64. -/
theorem read_i64_long_form (n : Nat) (rest : List Nat) (hn : n < 2 ^ 64) :
    read_i64 (write_i32 (-1) ++ toLeBytes8 n ++ rest) = .ok (decodeI64 n, rest) := by
  rw [read_i64, List.append_assoc, read_i32_write_i32 (-1) _ (by norm_num) (by norm_num)]
  have hb := read_byte_string_append (toLeBytes8 n) rest
  rw [toLeBytes8_length] at hb
  simp only [ne_eq, not_true_eq_false, reduceIte, hb, fromLeBytes_toLeBytes8 n hn]

/-- C3, amended.  Reading an i64 reads one little-endian i32 first; if that
value is exactly -1 it reads eight further little-endian bytes as the
i64 result, and otherwise the result is the SIGN-extension of the i32
value (`v as i64`), so non-sentinel prefixes with a negative i32 value
decode to that negative value. -/
theorem read_i64_reads_i32_then_extends :
    (∀ (v : Int) (rest : List Nat), -2 ^ 31 ≤ v → v < 2 ^ 31 → v ≠ -1 →
      read_i64 (write_i32 v ++ rest) = .ok (v, rest)) ∧
    (∀ (n : Nat) (rest : List Nat), n < 2 ^ 64 →
      read_i64 (write_i32 (-1) ++ toLeBytes8 n ++ rest) = .ok (decodeI64 n, rest)) :=
  ⟨read_i64_short_form, read_i64_long_form⟩

/-- C3, witness for the amended theorem: the non-sentinel prefix of -2
decodes to -2 (sign extension), and the sentinel followed by the eight
bytes of 2^63 decodes to the i64 -2^63. -/
theorem read_i64_reads_i32_then_extends_witness :
    read_i64 (write_i32 (-2) ++ []) = .ok (-2, []) ∧
      read_i64 (write_i32 (-1) ++ toLeBytes8 (2 ^ 63) ++ []) = .ok (decodeI64 (2 ^ 63), []) :=
  ⟨read_i64_reads_i32_then_extends.1 (-2) [] (by norm_num) (by norm_num) (by norm_num),
   read_i64_reads_i32_then_extends.2 (2 ^ 63) [] (by norm_num)⟩

/-- C7.  `validate_name` accepts a byte string exactly when it is not
empty, does not begin with `/` (byte 47), and has no `/`-separated
segment that is empty or equal to `..` (bytes 46 46). -/
theorem validate_name_accepts_iff (name : List Nat) :
    validate_name name = .ok () ↔
      ¬(name = [] ∨ name.head? = some 47 ∨
        ∃ part ∈ name.splitOn 47, part = [] ∨ part = [46, 46]) := by
  simp only [validate_name]
  split_ifs with h1 h2 h3
  · simp [h1]
  · simp [h2]
  · simp only [List.any_eq_true, Bool.or_eq_true, decide_eq_true_eq] at h3
    constructor
    · intro hc; exact absurd hc (by simp)
    · intro hno; exact absurd (Or.inr (Or.inr h3)) hno
  · simp only [List.any_eq_true, Bool.or_eq_true, decide_eq_true_eq] at h3
    push_neg at h3
    constructor
    · intro _
      rintro (hc | hc | ⟨p, hp, hc | hc⟩)
      · exact h1 hc
      · exact h2 hc
      · exact (h3 p hp).1 hc
      · exact (h3 p hp).2 hc
    · intro _; rfl

/-- C9.  On a stream starting with the server's version `v` and checksum
seed `seed` as i32s, the handshake fails exactly when `v` is strictly
below the client's `MY_PROTOCOL_VERSION`; on success the stored agreed
version is `min MY_PROTOCOL_VERSION v`, which is at least 27, and the
seed is recorded. -/
theorem handshake_version_agreement (v seed : Int) (rest : List Nat)
    (hv1 : -2 ^ 31 ≤ v) (hv2 : v < 2 ^ 31)
    (hs1 : -2 ^ 31 ≤ seed) (hs2 : seed < 2 ^ 31) :
    (v < MY_PROTOCOL_VERSION →
      handshake (write_i32 v ++ (write_i32 seed ++ rest)) = .error .tooOldProtocol) ∧
    (MY_PROTOCOL_VERSION ≤ v →
      handshake (write_i32 v ++ (write_i32 seed ++ rest)) =
        .ok (⟨min MY_PROTOCOL_VERSION v, seed⟩, rest) ∧
      27 ≤ min MY_PROTOCOL_VERSION v) := by
  constructor
  · intro hlt
    rw [handshake, read_i32_write_i32 v _ hv1 hv2]
    simp [hlt]
  · intro hge
    rw [handshake, read_i32_write_i32 v _ hv1 hv2]
    simp only [not_lt.mpr hge, if_neg (not_lt.mpr hge), read_i32_write_i32 seed rest hs1 hs2]
    refine ⟨rfl, ?_⟩
    simp only [MY_PROTOCOL_VERSION] at hge ⊢
    omega

/-- C9, witness: a version-27 server is accepted with agreed version
min 27 27 = 27, and a version-26 server is rejected. -/
theorem handshake_version_agreement_witness :
    (handshake (write_i32 27 ++ (write_i32 5 ++ [])) =
      .ok (⟨min MY_PROTOCOL_VERSION 27, 5⟩, []) ∧ 27 ≤ min MY_PROTOCOL_VERSION 27) ∧
    handshake (write_i32 26 ++ (write_i32 5 ++ [])) = .error .tooOldProtocol :=
  ⟨(handshake_version_agreement 27 5 [] (by norm_num) (by norm_num) (by norm_num)
      (by norm_num)).2 (by norm_num [MY_PROTOCOL_VERSION]),
   (handshake_version_agreement 26 5 [] (by norm_num) (by norm_num) (by norm_num)
      (by norm_num)).1 (by norm_num [MY_PROTOCOL_VERSION])⟩

/-- C10.  Every successful handshake stores agreed protocol version
exactly 27; consequently the soft-error-count read of
`Connection::receive` always takes its reading branch (27 < 30), and
`read_server_statistics` reads only the three mandatory i64s, leaving
both optional fields absent and the rest of the stream untouched. -/
theorem agreed_protocol_is_27 (s : List Nat) (c : Connection) (rest : List Nat)
    (h : handshake s = .ok (c, rest)) :
    c.protocol_version = 27 ∧
    (∀ s2 : List Nat, readSoftErrorCount c.protocol_version s2 =
      match read_i32 s2 with
      | .error e => .error e
      | .ok (n, s3) => .ok (some n, s3)) ∧
    (∀ (a b d : Int) (r2 : List Nat), 0 ≤ a → a < 2 ^ 31 → 0 ≤ b → b < 2 ^ 31 →
      0 ≤ d → d < 2 ^ 31 →
      read_server_statistics (write_i32 a ++ (write_i32 b ++ (write_i32 d ++ r2)))
          c.protocol_version =
        .ok (⟨a, b, d, none, none⟩, r2)) := by
  have hpv : c.protocol_version = 27 := by
    rw [handshake] at h
    cases hr : read_i32 s with
    | error e => simp only [hr] at h; cases h
    | ok p =>
      obtain ⟨v, s1⟩ := p
      simp only [hr] at h
      by_cases hv : v < MY_PROTOCOL_VERSION
      · rw [if_pos hv] at h; cases h
      · rw [if_neg hv] at h
        cases hr2 : read_i32 s1 with
        | error e => simp only [hr2] at h; cases h
        | ok q =>
          obtain ⟨seed, s2⟩ := q
          simp only [hr2, Except.ok.injEq, Prod.mk.injEq] at h
          rcases h with ⟨rfl, rfl⟩
          show min MY_PROTOCOL_VERSION v = 27
          simp only [MY_PROTOCOL_VERSION] at hv ⊢
          exact min_eq_left (by omega)
  refine ⟨hpv, ?_, ?_⟩
  · intro s2
    rw [hpv, readSoftErrorCount, if_pos (by norm_num)]
  · intro a b d r2 ha1 ha2 hb1 hb2 hd1 hd2
    have h1 := read_i64_short_form a (write_i32 b ++ (write_i32 d ++ r2))
      (by omega) ha2 (by omega)
    have h2 := read_i64_short_form b (write_i32 d ++ r2) (by omega) hb2 (by omega)
    have h3 := read_i64_short_form d r2 (by omega) hd2 (by omega)
    rw [hpv, read_server_statistics]
    simp only [h1, h2, h3]
    norm_num

/-- C10, witness: a concrete successful handshake against a version-30
server agrees on 27, the soft-error count is then read, and concrete
statistics decode with absent optional fields. -/
theorem agreed_protocol_is_27_witness :
    (Connection.mk 27 9).protocol_version = 27 ∧
    readSoftErrorCount (Connection.mk 27 9).protocol_version [5, 0, 0, 0] =
      .ok (some 5, []) ∧
    read_server_statistics (write_i32 1 ++ (write_i32 2 ++ (write_i32 3 ++ [])))
        (Connection.mk 27 9).protocol_version =
      .ok (⟨1, 2, 3, none, none⟩, []) := by
  have h := agreed_protocol_is_27 (write_i32 30 ++ (write_i32 9 ++ [])) ⟨27, 9⟩ []
    (by decide)
  refine ⟨h.1, ?_, ?_⟩
  · rw [h.2.1 [5, 0, 0, 0]]
    rfl
  · exact h.2.2 1 2 3 [] (by norm_num) (by norm_num) (by norm_num) (by norm_num)
      (by norm_num) (by norm_num)

theorem take_four_append (n : Nat) (t : List Nat) :
    (toLeBytes4 n ++ t).take 4 = toLeBytes4 n := by
  rw [← toLeBytes4_length n]
  exact List.take_left _ _

theorem drop_four_append (n : Nat) (t : List Nat) :
    (toLeBytes4 n ++ t).drop 4 = t := by
  rw [← toLeBytes4_length n]
  exact List.drop_left _ _

/-- Helper: one step of the header loop on a stream starting with an
encoded frame header. -/
theorem rhcm_cons_frame (tag len : Nat) (t : List Nat)
    (htag : tag < 256) (hlen : len < 2 ^ 24) :
    read_header_consume_messages (toLeBytes4 (tag * 16777216 + len) ++ t) =
      if tag = TAG_DATA then
        if len = 0 then .error .zeroLengthData else .ok (len, t)
      else
        if len ≤ t.length then
          if tag = TAG_FATAL then .error .remoteFatal
          else read_header_consume_messages (t.drop len)
        else .error .unexpectedEof := by
  have h4 : 4 ≤ (toLeBytes4 (tag * 16777216 + len) ++ t).length := by
    simp [toLeBytes4]
  have hval : fromLeBytes ((toLeBytes4 (tag * 16777216 + len) ++ t).take 4) =
      tag * 16777216 + len := by
    rw [take_four_append]
    exact fromLeBytes_toLeBytes4 _ (by omega)
  have hdiv : (tag * 16777216 + len) / 16777216 = tag := by omega
  have hmod : (tag * 16777216 + len) % 16777216 = len := by omega
  rw [read_header_consume_messages, dif_pos h4, hval, hdiv, hmod, drop_four_append]

/-- C4, counterexample.  The claim says an EOF after one to three header
bytes (a truncated header) yields an error, but the code's `read_exact`
maps any `UnexpectedEof` on the header, truncated or clean, to `Ok(0)`
(src/mux.rs lines 71-79): on the one-byte stream `[1]` the read
succeeds with zero bytes instead of failing. -/
theorem demux_truncated_header_counterexample :
    demuxRead (2 ^ 24) ⟨[1], 0⟩ = .ok ([], ⟨[], 0⟩) := by
  have h : read_header_consume_messages [1] = .ok (0, []) := by
    rw [read_header_consume_messages]
    norm_num
  simp [demuxRead, h]

/-- C4, amended.  A clean EOF before any header byte, and also an EOF
after one to three header bytes, yields a successful read of zero
bytes; an EOF inside a message-frame (non-data) payload yields an
error; an EOF inside a data-frame payload is silent truncation: the
available bytes are returned and the following read reports zero bytes
without an error. -/
theorem demux_eof_handling :
    (∀ n : Nat, demuxRead n ⟨[], 0⟩ = .ok ([], ⟨[], 0⟩)) ∧
    (∀ (n : Nat) (hdr : List Nat), hdr.length < 4 →
      demuxRead n ⟨hdr, 0⟩ = .ok ([], ⟨[], 0⟩)) ∧
    (∀ (n tag len : Nat) (payload : List Nat), tag < 256 → tag ≠ TAG_DATA →
      len < 2 ^ 24 → payload.length < len →
      demuxRead n ⟨toLeBytes4 (tag * 16777216 + len) ++ payload, 0⟩ =
        .error .unexpectedEof) ∧
    (∀ (len : Nat) (payload : List Nat), 0 < len → len < 2 ^ 24 →
      payload.length < len →
      demuxRead (2 ^ 24) ⟨toLeBytes4 (TAG_DATA * 16777216 + len) ++ payload, 0⟩ =
        .ok (payload, ⟨[], len - payload.length⟩) ∧
      demuxRead (2 ^ 24) ⟨[], len - payload.length⟩ =
        .ok ([], ⟨[], len - payload.length⟩)) := by
  have hshort : ∀ (n : Nat) (hdr : List Nat), hdr.length < 4 →
      demuxRead n ⟨hdr, 0⟩ = .ok ([], ⟨[], 0⟩) := by
    intro n hdr hlen
    have h : read_header_consume_messages hdr = .ok (0, []) := by
      rw [read_header_consume_messages, dif_neg (by omega)]
    simp [demuxRead, h]
  refine ⟨fun n => hshort n [] (by norm_num), hshort, ?_, ?_⟩
  · intro n tag len payload htag htag7 hlen hpl
    have h := rhcm_cons_frame tag len payload htag hlen
    rw [if_neg htag7, if_neg (by omega)] at h
    simp [demuxRead, h]
  · intro len payload hpos hlen hpl
    constructor
    · have h := rhcm_cons_frame TAG_DATA len payload (by norm_num [TAG_DATA]) hlen
      rw [if_pos rfl, if_neg (by omega)] at h
      simp only [demuxRead, reduceIte, h]
      have h1 : min (2 ^ 24) len = len := Nat.min_eq_right (by omega)
      have h2 : min len payload.length = payload.length := Nat.min_eq_right (by omega)
      rw [h1, h2, List.take_length, List.drop_length]
    · have hne : ¬(len - payload.length = 0) := by omega
      simp [demuxRead, hne]

/-- C4, witness: concrete instances of the amended behavior, including the
silently truncated data frame. -/
theorem demux_eof_handling_witness :
    demuxRead 8 ⟨[], 0⟩ = .ok ([], ⟨[], 0⟩) ∧
    demuxRead 8 ⟨[9, 9], 0⟩ = .ok ([], ⟨[], 0⟩) ∧
    demuxRead 8 ⟨toLeBytes4 (2 * 16777216 + 3) ++ [1], 0⟩ = .error .unexpectedEof ∧
    demuxRead (2 ^ 24) ⟨toLeBytes4 (TAG_DATA * 16777216 + 2) ++ [5], 0⟩ =
      .ok ([5], ⟨[], 2 - 1⟩) := by
  refine ⟨demux_eof_handling.1 8,
    demux_eof_handling.2.1 8 [9, 9] (by norm_num),
    demux_eof_handling.2.2.1 8 2 3 [1] (by norm_num) (by decide)
      (by norm_num) (by norm_num), ?_⟩
  have h := (demux_eof_handling.2.2.2 2 [5] (by norm_num) (by norm_num)
    (by norm_num)).1
  simpa using h

theorem encodeFrames_append (xs ys : List Frame) :
    encodeFrames (xs ++ ys) = encodeFrames xs ++ encodeFrames ys := by
  induction xs with
  | nil => simp [encodeFrames]
  | cons f fs ih => simp [encodeFrames, ih]

theorem encodeFrame_length (f : Frame) :
    (encodeFrame f).length = 4 + f.payload.length := by
  simp [encodeFrame, toLeBytes4]
  omega

theorem numData_le_length (fs : List Frame) :
    numData fs ≤ (encodeFrames fs).length := by
  induction fs with
  | nil => simp [numData, encodeFrames]
  | cons f fs ih =>
    simp only [numData, encodeFrames, List.length_append, encodeFrame_length]
    split <;> omega

/-- Helper: a read at the start of an encoded nonempty data frame returns
the whole payload and leaves the rest of the stream. -/
theorem demuxRead_data_frame (payload t : List Nat)
    (hlen : payload.length < 2 ^ 24) (hne : payload ≠ []) :
    demuxRead (2 ^ 24) ⟨encodeFrame ⟨TAG_DATA, payload⟩ ++ t, 0⟩ =
      .ok (payload, ⟨t, 0⟩) := by
  have h := rhcm_cons_frame TAG_DATA payload.length (payload ++ t)
    (by norm_num [TAG_DATA]) hlen
  rw [if_pos rfl, if_neg (by simp [List.length_eq_zero, hne])] at h
  simp only [encodeFrame, List.append_assoc, List.cons_append, List.nil_append]
  simp only [demuxRead, reduceIte, h]
  have h1 : min (2 ^ 24) payload.length = payload.length := Nat.min_eq_right (by omega)
  have h2 : min payload.length (payload ++ t).length = payload.length := by
    simp [List.length_append]
  rw [h1, h2, List.take_left, List.drop_left]
  simp

/-- Helper: a read at the start of an encoded message frame (neither data
nor fatal) behaves as the read on the stream after it. -/
theorem demuxRead_msg_frame (tag : Nat) (payload t : List Nat) (bl : Nat)
    (htag : tag < 256) (h7 : tag ≠ TAG_DATA) (h1 : tag ≠ TAG_FATAL)
    (hlen : payload.length < 2 ^ 24) :
    demuxRead bl ⟨encodeFrame ⟨tag, payload⟩ ++ t, 0⟩ = demuxRead bl ⟨t, 0⟩ := by
  have h := rhcm_cons_frame tag payload.length (payload ++ t) htag hlen
  rw [if_neg h7, if_pos (by simp [List.length_append]), if_neg h1,
    List.drop_left] at h
  simp only [encodeFrame, List.append_assoc, List.cons_append, List.nil_append]
  simp only [demuxRead, reduceIte, h]

/-- Helper: with enough fuel, the read loop over an encoding of well-formed
clean frames returns exactly the data payloads. -/
theorem demuxRunFuel_encodeFrames (fs : List Frame) :
    ∀ fuel, numData fs < fuel → (∀ g ∈ fs, g.wf) → (∀ g ∈ fs, g.clean) →
      demuxRunFuel (2 ^ 24) fuel ⟨encodeFrames fs, 0⟩ = .ok (dataPayloads fs) := by
  induction fs with
  | nil =>
    intro fuel hf _ _
    obtain ⟨fuel, rfl⟩ : ∃ k, fuel = k + 1 := ⟨fuel - 1, by omega⟩
    have h : read_header_consume_messages [] = .ok (0, []) := by
      rw [read_header_consume_messages, dif_neg (by simp)]
    simp [demuxRunFuel, demuxRead, h, encodeFrames, dataPayloads]
  | cons f fs ih =>
    intro fuel hf hwf hclean
    obtain ⟨fuel, rfl⟩ : ∃ k, fuel = k + 1 := ⟨fuel - 1, by omega⟩
    have hwf_f : f.wf := hwf f (by simp)
    have hclean_f : f.clean := hclean f (by simp)
    have hwf' : ∀ g ∈ fs, g.wf := fun g hg => hwf g (by simp [hg])
    have hclean' : ∀ g ∈ fs, g.clean := fun g hg => hclean g (by simp [hg])
    by_cases h7 : f.tag = TAG_DATA
    · have hne : f.payload ≠ [] := hclean_f.2 h7
      have hread : demuxRead (2 ^ 24) ⟨encodeFrames (f :: fs), 0⟩ =
          .ok (f.payload, ⟨encodeFrames fs, 0⟩) := by
        have h := demuxRead_data_frame f.payload (encodeFrames fs) hwf_f.2 hne
        rw [show (⟨TAG_DATA, f.payload⟩ : Frame) = f from by
          cases f; simp_all] at h
        simpa [encodeFrames] using h
      have hih : demuxRunFuel (2 ^ 24) fuel ⟨encodeFrames fs, 0⟩ =
          .ok (dataPayloads fs) := by
        apply ih fuel ?_ hwf' hclean'
        simp only [numData, if_pos h7] at hf
        omega
      simp only [demuxRunFuel, hread, hih, if_neg hne]
      simp [dataPayloads, h7]
    · have h1 : f.tag ≠ TAG_FATAL := hclean_f.1
      have hread : demuxRead (2 ^ 24) ⟨encodeFrames (f :: fs), 0⟩ =
          demuxRead (2 ^ 24) ⟨encodeFrames fs, 0⟩ := by
        have h := demuxRead_msg_frame f.tag f.payload (encodeFrames fs) (2 ^ 24)
          hwf_f.1 h7 h1 hwf_f.2
        rw [show (⟨f.tag, f.payload⟩ : Frame) = f from by cases f; rfl] at h
        simpa [encodeFrames] using h
      have hstep : demuxRunFuel (2 ^ 24) (fuel + 1) ⟨encodeFrames (f :: fs), 0⟩ =
          demuxRunFuel (2 ^ 24) (fuel + 1) ⟨encodeFrames fs, 0⟩ := by
        simp only [demuxRunFuel]
        rw [hread]
      rw [hstep]
      have hdp : dataPayloads (f :: fs) = dataPayloads fs := by
        simp [dataPayloads, h7]
      rw [hdp]
      apply ih (fuel + 1) ?_ hwf' hclean'
      simp only [numData, if_neg h7] at hf
      omega

/-- Helper: an error produced by the read loop on a tail stream is
preserved when an encoding of well-formed clean frames precedes it. -/
theorem demuxRunFuel_prefix_error (e : Err) (t : List Nat)
    (ht : ∀ fuel, 0 < fuel → demuxRunFuel (2 ^ 24) fuel ⟨t, 0⟩ = .error e) :
    ∀ (pre : List Frame) (fuel : Nat), numData pre < fuel →
      (∀ g ∈ pre, g.wf) → (∀ g ∈ pre, g.clean) →
      demuxRunFuel (2 ^ 24) fuel ⟨encodeFrames pre ++ t, 0⟩ = .error e := by
  intro pre
  induction pre with
  | nil =>
    intro fuel hf _ _
    simpa [encodeFrames] using ht fuel (by omega)
  | cons f fs ih =>
    intro fuel hf hwf hclean
    obtain ⟨fuel, rfl⟩ : ∃ k, fuel = k + 1 := ⟨fuel - 1, by omega⟩
    have hwf_f : f.wf := hwf f (by simp)
    have hclean_f : f.clean := hclean f (by simp)
    have hwf' : ∀ g ∈ fs, g.wf := fun g hg => hwf g (by simp [hg])
    have hclean' : ∀ g ∈ fs, g.clean := fun g hg => hclean g (by simp [hg])
    have hassoc : encodeFrames (f :: fs) ++ t = encodeFrame f ++ (encodeFrames fs ++ t) := by
      simp [encodeFrames]
    by_cases h7 : f.tag = TAG_DATA
    · have hne : f.payload ≠ [] := hclean_f.2 h7
      have hread : demuxRead (2 ^ 24) ⟨encodeFrames (f :: fs) ++ t, 0⟩ =
          .ok (f.payload, ⟨encodeFrames fs ++ t, 0⟩) := by
        have h := demuxRead_data_frame f.payload (encodeFrames fs ++ t) hwf_f.2 hne
        rw [show (⟨TAG_DATA, f.payload⟩ : Frame) = f from by
          cases f; simp_all] at h
        rw [hassoc]
        exact h
      have hih : demuxRunFuel (2 ^ 24) fuel ⟨encodeFrames fs ++ t, 0⟩ = .error e := by
        apply ih fuel ?_ hwf' hclean'
        simp only [numData, if_pos h7] at hf
        omega
      simp only [demuxRunFuel, hread, hih, if_neg hne]
    · have h1 : f.tag ≠ TAG_FATAL := hclean_f.1
      have hread : demuxRead (2 ^ 24) ⟨encodeFrames (f :: fs) ++ t, 0⟩ =
          demuxRead (2 ^ 24) ⟨encodeFrames fs ++ t, 0⟩ := by
        have h := demuxRead_msg_frame f.tag f.payload (encodeFrames fs ++ t) (2 ^ 24)
          hwf_f.1 h7 h1 hwf_f.2
        rw [show (⟨f.tag, f.payload⟩ : Frame) = f from by cases f; rfl] at h
        rw [hassoc]
        exact h
      have hstep : demuxRunFuel (2 ^ 24) (fuel + 1) ⟨encodeFrames (f :: fs) ++ t, 0⟩ =
          demuxRunFuel (2 ^ 24) (fuel + 1) ⟨encodeFrames fs ++ t, 0⟩ := by
        simp only [demuxRunFuel]
        rw [hread]
      rw [hstep]
      apply ih (fuel + 1) ?_ hwf' hclean'
      simp only [numData, if_neg h7] at hf
      omega

/-- Helper: a fatal frame at the head of the stream aborts the read loop
with a remote-fatal error. -/
theorem demuxRunFuel_fatal_head (f : Frame) (post : List Frame) (hwf : f.wf)
    (h1 : f.tag = TAG_FATAL) :
    ∀ fuel, 0 < fuel →
      demuxRunFuel (2 ^ 24) fuel ⟨encodeFrames (f :: post), 0⟩ =
        .error .remoteFatal := by
  intro fuel hfuel
  obtain ⟨fuel, rfl⟩ : ∃ k, fuel = k + 1 := ⟨fuel - 1, by omega⟩
  have h := rhcm_cons_frame f.tag f.payload.length (f.payload ++ encodeFrames post)
    hwf.1 hwf.2
  rw [if_neg (by rw [h1]; decide), if_pos (by simp [List.length_append]),
    if_pos h1] at h
  have hread : demuxRead (2 ^ 24) ⟨encodeFrames (f :: post), 0⟩ =
      .error .remoteFatal := by
    simp only [encodeFrames, encodeFrame, List.append_assoc]
    simp only [demuxRead, reduceIte, h]
  simp only [demuxRunFuel, hread]

/-- Helper: a zero-length data frame at the head of the stream aborts the
read loop with the zero-length-data error. -/
theorem demuxRunFuel_zerodata_head (f : Frame) (post : List Frame) (hwf : f.wf)
    (h7 : f.tag = TAG_DATA) (hp : f.payload = []) :
    ∀ fuel, 0 < fuel →
      demuxRunFuel (2 ^ 24) fuel ⟨encodeFrames (f :: post), 0⟩ =
        .error .zeroLengthData := by
  intro fuel hfuel
  obtain ⟨fuel, rfl⟩ : ∃ k, fuel = k + 1 := ⟨fuel - 1, by omega⟩
  have h := rhcm_cons_frame f.tag f.payload.length (f.payload ++ encodeFrames post)
    hwf.1 hwf.2
  rw [if_pos h7, if_pos (by rw [hp]; rfl)] at h
  have hread : demuxRead (2 ^ 24) ⟨encodeFrames (f :: post), 0⟩ =
      .error .zeroLengthData := by
    simp only [encodeFrames, encodeFrame, List.append_assoc]
    simp only [demuxRead, reduceIte, h]
  simp only [demuxRunFuel, hread]

/-- C5.  Over any stream of well-formed frames: when no frame is fatal and
every data frame is nonempty, the concatenation of the demultiplexer's
reads is exactly the concatenation of the tag-7 payloads in stream
order (frames with other tags contribute nothing); a tag-1 frame makes
the run fail with the remote-fatal error; and a zero-length data frame
makes it fail with the zero-length-data error. -/
theorem demux_output_is_data_payloads :
    (∀ fs : List Frame, (∀ g ∈ fs, g.wf) → (∀ g ∈ fs, g.clean) →
      demuxRun ⟨encodeFrames fs, 0⟩ = .ok (dataPayloads fs)) ∧
    (∀ (pre : List Frame) (f : Frame) (post : List Frame),
      (∀ g ∈ pre, g.wf) → (∀ g ∈ pre, g.clean) → f.wf → f.tag = TAG_FATAL →
      demuxRun ⟨encodeFrames (pre ++ f :: post), 0⟩ = .error .remoteFatal) ∧
    (∀ (pre : List Frame) (f : Frame) (post : List Frame),
      (∀ g ∈ pre, g.wf) → (∀ g ∈ pre, g.clean) → f.wf → f.tag = TAG_DATA →
      f.payload = [] →
      demuxRun ⟨encodeFrames (pre ++ f :: post), 0⟩ = .error .zeroLengthData) := by
  refine ⟨?_, ?_, ?_⟩
  · intro fs hwf hclean
    have h := demuxRunFuel_encodeFrames fs ((encodeFrames fs).length + 1)
      (by have := numData_le_length fs; omega) hwf hclean
    unfold demuxRun
    exact h
  · intro pre f post hwf hclean hwff h1
    unfold demuxRun
    rw [encodeFrames_append]
    apply demuxRunFuel_prefix_error _ _
      (demuxRunFuel_fatal_head f post hwff h1) pre _ ?_ hwf hclean
    have h2 := numData_le_length pre
    simp only [List.length_append]
    omega
  · intro pre f post hwf hclean hwff h7 hp
    unfold demuxRun
    rw [encodeFrames_append]
    apply demuxRunFuel_prefix_error _ _
      (demuxRunFuel_zerodata_head f post hwff h7 hp) pre _ ?_ hwf hclean
    have h2 := numData_le_length pre
    simp only [List.length_append]
    omega

/-- C5, witness: a concrete stream of four frames (message, data [1,2],
message, data [3]) demuxes to [1,2,3]; prepending frames before a fatal
frame or an empty data frame yields the respective errors. -/
theorem demux_output_is_data_payloads_witness :
    demuxRun ⟨encodeFrames [⟨3, [10]⟩, ⟨7, [1, 2]⟩, ⟨5, []⟩, ⟨7, [3]⟩], 0⟩ =
      .ok [1, 2, 3] ∧
    demuxRun ⟨encodeFrames ([⟨7, [9]⟩] ++ ⟨1, [65]⟩ :: [⟨7, [4]⟩]), 0⟩ =
      .error .remoteFatal ∧
    demuxRun ⟨encodeFrames ([⟨3, [2]⟩] ++ ⟨7, []⟩ :: []), 0⟩ =
      .error .zeroLengthData := by
  refine ⟨?_, ?_, ?_⟩
  · have h := demux_output_is_data_payloads.1 [⟨3, [10]⟩, ⟨7, [1, 2]⟩, ⟨5, []⟩, ⟨7, [3]⟩]
      (by decide) (by decide)
    simpa [dataPayloads, TAG_DATA] using h
  · exact demux_output_is_data_payloads.2.1 [⟨7, [9]⟩] ⟨1, [65]⟩ [⟨7, [4]⟩]
      (by decide) (by decide) (by decide) rfl
  · exact demux_output_is_data_payloads.2.2 [⟨3, [2]⟩] ⟨7, []⟩ []
      (by decide) (by decide) (by decide) rfl rfl

/-- Helper: writing nonempty short buffers through the multiplexer encodes
each as one data frame. -/
theorem muxWriteAll_encodes (bufs : List (List Nat))
    (h : ∀ b ∈ bufs, b.length < 16777215) :
    muxWriteAll bufs = .ok (encodeFrames (bufs.map (fun b => ⟨TAG_DATA, b⟩))) := by
  induction bufs with
  | nil => simp [muxWriteAll, encodeFrames]
  | cons b bs ih =>
    have hb : b.length < 16777215 := h b (by simp)
    have ih' := ih (fun x hx => h x (by simp [hx]))
    simp [muxWriteAll, muxWrite, hb, ih', encodeFrames, encodeFrame]

theorem dataPayloads_map_data (bufs : List (List Nat)) :
    dataPayloads (bufs.map (fun b => ⟨TAG_DATA, b⟩)) = bufs.flatten := by
  induction bufs with
  | nil => simp [dataPayloads]
  | cons b bs ih => simp [dataPayloads, ih]

/-- C8, counterexample.  The claim quantifies over buffers of length at
most 0xFFFFFF.  An empty buffer (length 0 ≤ 0xFFFFFF) is written as a
zero-length data frame, which the demultiplexer rejects as an error
instead of round-tripping; and a buffer of length exactly 0xFFFFFF
trips the multiplexer's `assert!(l < 0x0ff_ffff)` panic. -/
theorem mux_demux_boundary_counterexample :
    muxWriteAll [[]] = .ok [0, 0, 0, 7] ∧
    demuxRun ⟨[0, 0, 0, 7], 0⟩ = .error .zeroLengthData ∧
    muxWrite (List.replicate 16777215 0) = .error .panicDataTooBig := by
  refine ⟨by decide, ?_, ?_⟩
  · rw [show ([0, 0, 0, 7] : List Nat) = encodeFrames [⟨7, []⟩] from by decide]
    unfold demuxRun
    exact demuxRunFuel_zerodata_head ⟨7, []⟩ [] (by decide) rfl rfl _ (by decide)
  · have hl : ¬(List.replicate 16777215 (0 : Nat)).length < 16777215 := by
      rw [List.length_replicate]
      omega
    rw [muxWrite, if_neg hl]

/-- C8, amended.  For every sequence of byte buffers, each nonempty and of
length strictly below 0xFFFFFF, writing them through the multiplexer
and reading the result through the demultiplexer yields exactly the
concatenation of the original buffers. -/
theorem mux_demux_roundtrip (bufs : List (List Nat))
    (h : ∀ b ∈ bufs, b ≠ [] ∧ b.length < 16777215) :
    ∃ s, muxWriteAll bufs = .ok s ∧ demuxRun ⟨s, 0⟩ = .ok bufs.flatten := by
  refine ⟨_, muxWriteAll_encodes bufs (fun b hb => (h b hb).2), ?_⟩
  have hwf : ∀ g ∈ bufs.map (fun b => (⟨TAG_DATA, b⟩ : Frame)), g.wf := by
    intro g hg
    simp only [List.mem_map] at hg
    obtain ⟨b, hb, rfl⟩ := hg
    refine ⟨by norm_num [TAG_DATA], ?_⟩
    show b.length < 2 ^ 24
    have := (h b hb).2
    omega
  have hclean : ∀ g ∈ bufs.map (fun b => (⟨TAG_DATA, b⟩ : Frame)), g.clean := by
    intro g hg
    simp only [List.mem_map] at hg
    obtain ⟨b, hb, rfl⟩ := hg
    exact ⟨by norm_num [TAG_DATA, TAG_FATAL], fun _ => (h b hb).1⟩
  have hr := demuxRunFuel_encodeFrames (bufs.map (fun b => ⟨TAG_DATA, b⟩))
    ((encodeFrames (bufs.map (fun b => ⟨TAG_DATA, b⟩))).length + 1)
    (by have := numData_le_length (bufs.map (fun b => (⟨TAG_DATA, b⟩ : Frame))); omega)
    hwf hclean
  rw [dataPayloads_map_data] at hr
  unfold demuxRun
  exact hr

/-- C8, witness: the buffers [5] and [6,7] round-trip to [5,6,7]. -/
theorem mux_demux_roundtrip_witness :
    ∃ s, muxWriteAll [[5], [6, 7]] = .ok s ∧ demuxRun ⟨s, 0⟩ = .ok [5, 6, 7] := by
  have h := mux_demux_roundtrip [[5], [6, 7]] (by decide)
  simpa using h

theorem bytesCmp_nil_left (ys : List Nat) : bytesCmp [] ys ≠ .gt := by
  cases ys <;> simp [bytesCmp]

/-- Helper: the byte-wise comparison is transitive on its non-strict
order. -/
theorem bytesCmp_le_trans : ∀ xs ys zs : List Nat,
    bytesCmp xs ys ≠ .gt → bytesCmp ys zs ≠ .gt → bytesCmp xs zs ≠ .gt
  | [], _, zs, _, _ => bytesCmp_nil_left zs
  | _ :: _, [], _, h1, _ => absurd rfl h1
  | _ :: _, _ :: _, [], _, h2 => absurd rfl h2
  | a :: xs, b :: ys, c :: zs, h1, h2 => by
    simp only [bytesCmp] at h1 h2 ⊢
    by_cases hab : a < b
    · by_cases hbc : b < c
      · rw [if_pos (by omega)]
        simp
      · rw [if_neg hbc] at h2
        by_cases hcb : c < b
        · rw [if_pos hcb] at h2
          simp at h2
        · rw [if_pos (by omega)]
          simp
    · rw [if_neg hab] at h1
      by_cases hba : b < a
      · rw [if_pos hba] at h1
        simp at h1
      · rw [if_neg hba] at h1
        by_cases hbc : b < c
        · rw [if_pos (by omega)]
          simp
        · rw [if_neg hbc] at h2
          by_cases hcb : c < b
          · rw [if_pos hcb] at h2
            simp at h2
          · rw [if_neg hcb] at h2
            rw [if_neg (by omega), if_neg (by omega)]
            exact bytesCmp_le_trans xs ys zs h1 h2

/-- Helper: the byte-wise comparison is antisymmetric between its strict
orders. -/
theorem bytesCmp_gt_lt : ∀ xs ys : List Nat,
    bytesCmp xs ys = .gt → bytesCmp ys xs = .lt
  | _ :: _, [], _ => by simp [bytesCmp]
  | [], ys, h => by cases ys <;> simp [bytesCmp] at h
  | a :: xs, b :: ys, h => by
    simp only [bytesCmp] at h ⊢
    by_cases hab : a < b
    · rw [if_pos hab] at h
      simp at h
    · rw [if_neg hab] at h
      by_cases hba : b < a
      · rw [if_pos hba]
      · rw [if_neg hba] at h
        rw [if_neg (by omega), if_neg (by omega)]
        exact bytesCmp_gt_lt xs ys h

/-- Helper: the byte-wise comparison returns eq exactly on equal lists. -/
theorem bytesCmp_eq_iff : ∀ xs ys : List Nat, bytesCmp xs ys = .eq ↔ xs = ys
  | [], [] => by simp [bytesCmp]
  | [], _ :: _ => by simp [bytesCmp]
  | _ :: _, [] => by simp [bytesCmp]
  | a :: xs, b :: ys => by
    simp only [bytesCmp, List.cons.injEq]
    rcases Nat.lt_trichotomy a b with h | h | h
    · rw [if_pos h]
      constructor
      · intro hc; cases hc
      · rintro ⟨rfl, -⟩; omega
    · subst h
      rw [if_neg (lt_irrefl a), if_neg (lt_irrefl a)]
      simp [bytesCmp_eq_iff xs ys]
    · rw [if_neg (by omega), if_pos h]
      constructor
      · intro hc; cases hc
      · rintro ⟨rfl, -⟩; omega

instance : IsTotal FileEntry entryLe :=
  ⟨fun a b => by
    unfold entryLe
    by_cases h : bytesCmp a.name b.name = .gt
    · right
      rw [bytesCmp_gt_lt _ _ h]
      simp
    · left
      exact h⟩

instance : IsTrans FileEntry entryLe :=
  ⟨fun a b c => bytesCmp_le_trans a.name b.name c.name⟩

theorem dedupKeep_cons (x : FileEntry) : ∀ l, ∃ t, dedupKeep x l = x :: t
  | [] => ⟨[], rfl⟩
  | y :: rest => by
    unfold dedupKeep
    by_cases h : x.name = y.name
    · rw [if_pos h]
      exact dedupKeep_cons x rest
    · rw [if_neg h]
      exact ⟨_, rfl⟩

/-- Helper: deduplication of a non-strictly sorted run produces a strictly
increasing chain. -/
theorem chain'_lt_dedupKeep : ∀ (l : List FileEntry) (x : FileEntry),
    List.Chain' entryLe (x :: l) → List.Chain' entryLt (dedupKeep x l)
  | [], x, _ => by simp [dedupKeep]
  | y :: rest, x, h => by
    rw [List.chain'_cons] at h
    obtain ⟨hxy, hch⟩ := h
    unfold dedupKeep
    by_cases hn : x.name = y.name
    · rw [if_pos hn]
      apply chain'_lt_dedupKeep rest x
      cases rest with
      | nil => simp
      | cons z rs =>
        rw [List.chain'_cons] at hch ⊢
        refine ⟨?_, hch.2⟩
        unfold entryLe at hch ⊢
        rw [hn]
        exact hch.1
    · rw [if_neg hn]
      obtain ⟨t, ht⟩ := dedupKeep_cons y rest
      rw [ht, List.chain'_cons]
      constructor
      · unfold entryLt
        unfold entryLe at hxy
        rcases hcases : bytesCmp x.name y.name with _ | _ | _
        · rfl
        · exact absurd ((bytesCmp_eq_iff _ _).1 hcases) hn
        · exact absurd hcases hxy
      · rw [← ht]
        exact chain'_lt_dedupKeep rest y hch

/-- Helper: the output of `sort_and_dedupe` always has strictly increasing
names. -/
theorem chain'_lt_sort_and_dedupe (l : List FileEntry) :
    List.Chain' entryLt (sort_and_dedupe l) := by
  unfold sort_and_dedupe dedup_by_name
  cases h : List.insertionSort entryLe l with
  | nil => simp
  | cons x rest =>
    apply chain'_lt_dedupKeep
    have hs := List.sorted_insertionSort entryLe l
    rw [h] at hs
    exact hs.chain'

/-- C6.  Every file list accepted by the file-list reader is returned with
strictly increasing names under the byte-wise comparison: it is sorted
and has no two adjacent entries with equal names. -/
theorem read_file_list_sorted (s : List Nat) (fl : List FileEntry)
    (rest : List Nat) (h : read_file_list s = .ok (fl, rest)) :
    List.Chain' entryLt fl := by
  unfold read_file_list at h
  cases hl : read_file_list_loop (s.length + 1) s [] with
  | error e =>
    rw [hl] at h
    cases h
  | ok p =>
    obtain ⟨entries, r⟩ := p
    rw [hl] at h
    simp only [Except.ok.injEq, Prod.mk.injEq] at h
    obtain ⟨rfl, -⟩ := h
    exact chain'_lt_sort_and_dedupe entries

/-- C6, witness: a concrete stream carrying entries named `b` then `a`
decodes, sorts to `a` then `b`, and the result is strictly
increasing. -/
theorem read_file_list_sorted_witness :
    List.Chain' entryLt
      [⟨[97], 3, 0, 0, none⟩, ⟨[98], 5, 0, 0, none⟩] :=
  read_file_list_sorted
    [1, 1, 98, 5, 0, 0, 0, 0, 0, 0, 0, 0, 0, 0, 0,
     1, 1, 97, 3, 0, 0, 0, 0, 0, 0, 0, 0, 0, 0, 0, 0]
    [⟨[97], 3, 0, 0, none⟩, ⟨[98], 5, 0, 0, none⟩] [] (by decide)

/-- C1, code-bug evaluation.  With a one-entry file list, receiving the
out-of-range index 1 increments `invalid_file_index_count` but then
panics (out-of-bounds `file_list[idx]`) instead of continuing the loop:
the source lacks a `continue` after the increment
(src/connection.rs lines 278-282).  By contrast the end-of-phase marker
-1 ends the loop normally. -/
theorem receive_offered_files_out_of_range_panics :
    receive_offered_files (fun _ => List.replicate 16 0) 0
        [⟨[97], 0, 33188, 0, none⟩] 5 ⟨0, 0, 0, 0, 0⟩ [1, 0, 0, 0] =
      .error (.panicIndexOutOfBounds ⟨0, 1, 0, 0, 0⟩) ∧
    receive_offered_files (fun _ => List.replicate 16 0) 0
        [⟨[97], 0, 33188, 0, none⟩] 5 ⟨0, 0, 0, 0, 0⟩ [255, 255, 255, 255] =
      .ok (⟨0, 0, 0, 0, 0⟩, []) := by
  constructor <;> decide

/-- C2, code-bug evaluation.  Receiving one file whose token stream is a
single literal chunk of one byte (97) feeds the byte to the hasher and
counts it in `literal_bytes_received`, but writes nothing to the local
tree: the writes component of the result is `[]` because the source
never writes the content (`TODO: Write it to the local tree`,
src/connection.rs line 315, `_local_tree` unused). -/
theorem receive_file_writes_nothing_to_tree :
    receive_file (fun _ => List.replicate 16 0) 0 ⟨[97], 1, 33188, 0, none⟩
        ⟨0, 0, 0, 0, 0⟩
        (List.replicate 16 0 ++ ([1, 0, 0, 0, 97, 0, 0, 0, 0] ++ List.replicate 16 0)) =
      .ok (⟨0, 0, 0, 1, 0⟩, [], []) := by decide

end Rsyn
